import Mathlib

/-!
Shallow embedding of the UDP transport core of radsecproxy (src/udp.c) and
of the TLV attribute module (src/unnamed/part_000, the file tlv11.c of the
repository), together with theorems settling the frozen claims about them.

Modelling conventions:
* C byte buffers are `List Nat` (each entry a byte value); machine integers
  are `Nat`/`Int`.
* `struct sockaddr` values are modelled by their byte layout: the 2-byte
  family field followed by the remaining bytes of the structure, because
  `addr_equal` in udp.c casts `struct sockaddr *` pointers according to the
  family of its FIRST argument only, so the raw byte layout is observable.
  Layout used (Linux/POSIX): `sockaddr_in` = family(2) ++ port(2) ++
  addr(4) ++ zero-padding(8); `sockaddr_in6` = family(2) ++ port(2) ++
  flowinfo(4) ++ addr(16) ++ scope_id(4).  AF_INET = 2, AF_INET6 = 10.
* `malloc` failure is modelled by an explicit allocation oracle: a list of
  `Bool`s consumed one per allocation (`true` = success); an exhausted
  oracle means every further allocation succeeds.
* Fallible C functions returning `NULL` are modelled with `Option`.
-/

namespace RadsecUdp

/-- A socket address as raw bytes: the address family (value of the first
two bytes) and `rest`, the bytes of the structure after the family field. -/
structure SockAddr where
  family : Nat
  rest : List Nat
deriving DecidableEq, Repr

/-- Well-formed IPv4 socket address: family AF_INET (2), then the 2 port
bytes, the 4 address bytes, and the 8 zero bytes of `sin_zero`. -/
def mkSockaddrIn (port addr : List Nat) : SockAddr :=
  ⟨2, port ++ (addr ++ List.replicate 8 0)⟩

/-- Well-formed IPv6 socket address: family AF_INET6 (10), then the 2 port
bytes, the 4 `sin6_flowinfo` bytes, the 16 address bytes and the 4
`sin6_scope_id` bytes. -/
def mkSockaddrIn6 (port flowinfo addr scope : List Nat) : SockAddr :=
  ⟨10, port ++ (flowinfo ++ (addr ++ scope))⟩

/-- udp.c `addr_equal`: switches on the family of `a` only and reads `b`
through the same cast, so it compares the bytes of `b` that sit at the
offsets dictated by `a`'s family.  For AF_INET it compares the 4 bytes at
offset 2 of `rest` (`sin_addr`) and the 2 port bytes; for AF_INET6 the 16
bytes at offset 6 of `rest` (`sin6_addr`) and the 2 port bytes; any other
family yields 0. -/
def addr_equal (a b : SockAddr) : Bool :=
  if a.family = 2 then
    decide ((a.rest.drop 2).take 4 = (b.rest.drop 2).take 4) &&
      decide (a.rest.take 2 = b.rest.take 2)
  else if a.family = 10 then
    decide ((a.rest.drop 6).take 16 = (b.rest.drop 6).take 16) &&
      decide (a.rest.take 2 = b.rest.take 2)
  else false

/-! ## TLV module (tlv11.c) -/

/-- The `struct tlv` record: type byte `t`, length byte `l`, and the value
buffer `v` (`none` models a NULL `v` pointer). -/
structure TLV where
  t : Nat
  l : Nat
  v : Option (List Nat)
deriving DecidableEq, Repr

/-- The TLV well-formedness invariant stated by the specification: the
value is absent iff `l = 0`, and a present value holds exactly `l` bytes. -/
def TLVinv (x : TLV) : Prop :=
  (x.v = none ↔ x.l = 0) ∧ ∀ b, x.v = some b → b.length = x.l

/-- Consume one answer from the allocation oracle; an exhausted oracle
means the allocation succeeds. -/
def alloc : List Bool → Bool × List Bool
  | [] => (true, [])
  | b :: r => (b, r)

/-- tlv11.c `maketlv`: allocate the `struct tlv` (one allocation), then, if
`l` is nonzero and `v` is non-NULL, allocate the value buffer (a second
allocation) and `memcpy` the first `l` bytes of `v` into it; otherwise the
stored value is NULL.  Returns NULL when an allocation fails. -/
def maketlvM (o : List Bool) (t l : Nat) (v : Option (List Nat)) :
    Option TLV × List Bool :=
  let a1 := alloc o
  if a1.1 = false then (none, a1.2)
  else if l ≠ 0 ∧ v.isSome then
    let a2 := alloc a1.2
    if a2.1 = false then (none, a2.2)
    else (some ⟨t, l, some ((v.getD []).take l)⟩, a2.2)
  else (some ⟨t, l, none⟩, a1.2)

/-- tlv11.c `copytlv`: NULL maps to NULL, otherwise `maketlv` on the
fields of the input. -/
def copytlvM (o : List Bool) (x : Option TLV) : Option TLV × List Bool :=
  match x with
  | none => (none, o)
  | some y => maketlvM o y.t y.l y.v

/-- The pure value produced by a successful `copytlv` of `y`. -/
def copytlvPure (y : TLV) : TLV :=
  ⟨y.t, y.l, if y.l ≠ 0 ∧ y.v.isSome then some ((y.v.getD []).take y.l) else none⟩

/-- tlv11.c `eqtlv`: NULL inputs compare by pointer equality (both NULL is
true, one NULL is false); otherwise the `t` and `l` fields must agree and
`memcmp` of the first `t1->l` value bytes must be 0. -/
def eqtlv : Option TLV → Option TLV → Bool
  | none, none => true
  | none, some _ => false
  | some _, none => false
  | some a, some b =>
    decide (a.t = b.t) && decide (a.l = b.l) &&
      decide ((a.v.getD []).take a.l = (b.v.getD []).take a.l)

/-- Loop body of tlv11.c `copytlvlist`: for each element, run `copytlv`
(its allocations first), then `list_push` the result, which allocates a
list node; only a failed node allocation aborts (freeing everything so
far and returning NULL) — a NULL element returned by `copytlv` is pushed
like any other value. -/
def copytlvlistGo : List Bool → List (Option TLV) → List TLV →
    Option (List (Option TLV)) × List Bool
  | o, acc, [] => (some acc, o)
  | o, acc, x :: rest =>
    let c := copytlvM o (some x)
    let a := alloc c.2
    if a.1 = false then (none, a.2)
    else copytlvlistGo a.2 (acc ++ [c.1]) rest

/-- tlv11.c `copytlvlist`: NULL input maps to NULL; `list_create` performs
one allocation (NULL on failure), then the per-element loop runs. -/
def copytlvlistM (o : List Bool) (tlvs : Option (List TLV)) :
    Option (List (Option TLV)) × List Bool :=
  match tlvs with
  | none => (none, o)
  | some l =>
    let a := alloc o
    if a.1 = false then (none, a.2)
    else copytlvlistGo a.2 [] l

/-- Loop of tlv11.c `rmtlv` over the linked list, carried out with the
kept-prefix accumulator: a node whose `t` matches is unlinked
(`list_removedata` removes the node holding exactly this element) and the
walk resumes at the successor of the previous kept node; a non-matching
node is kept and becomes the previous node. -/
def rmtlvGo (ty : Nat) : List TLV → List TLV → List TLV
  | kept, [] => kept
  | kept, x :: rest =>
    if x.t = ty then rmtlvGo ty kept rest else rmtlvGo ty (kept ++ [x]) rest

/-- tlv11.c `rmtlv`: remove every TLV whose type byte equals `ty`. -/
def rmtlv (tlvs : List TLV) (ty : Nat) : List TLV :=
  rmtlvGo ty [] tlvs

/-! ## Framed datagram receiver (udp.c `radudpget`) -/

/-- One UDP datagram sitting in a socket's receive queue: its source
address and its payload bytes. -/
structure Datagram where
  src : SockAddr
  data : List Nat
deriving DecidableEq, Repr

/-- Modelled from the spec: `get_checked_rad_length` is declared in
radsecproxy.h and defined outside the files under verification.  Per the
spec it computes the declared packet length from the 3rd and 4th bytes of
the 4-byte RADIUS header prefix (big-endian) and is negative on invalid
input; accepted lengths start at the 20-byte RADIUS header minimum (the
4096 cap is checked by the caller). -/
def get_checked_rad_length (b : List Nat) : Int :=
  let len : Nat := b.getD 2 0 * 256 + b.getD 3 0
  if len < 20 then -(len : Int) else (len : Int)

/-- One iteration of the udp.c `radudpget` loop on the next queued
datagram `d`, parameterised by the length check `gcrl`
(`get_checked_rad_length`) and by the peer-configuration lookup
(`find_clconf`/`find_srvconf`), abstracted to the predicate `knownPeer`
on the source address.  Steps, in source order: peek the first 4 bytes
and the source; drain and continue (`none`) when the peer is unknown,
when the checked length is ≤ 0 or > 4096, or when fewer bytes than
declared arrived; otherwise return the declared length and the first
`len` bytes of the datagram (a longer datagram is accepted truncated to
`len`).  Buffer allocation is modelled as succeeding. -/
def radudpgetStep (gcrl : List Nat → Int) (knownPeer : SockAddr → Bool)
    (d : Datagram) : Option (Int × List Nat) :=
  if knownPeer d.src = false then none
  else
    let len := gcrl (d.data.take 4)
    if len ≤ 0 then none
    else if 4096 < len then none
    else if (d.data.length : Int) < len then none
    else some (len, d.data.take len.toNat)

/-- The udp.c `radudpget` loop over the socket's queued datagrams: the
first datagram on which the step emits a buffer ends the loop; every
other datagram is consumed and the loop continues.  `none` models a loop
that is still waiting for further datagrams. -/
def radudpget (gcrl : List Nat → Int) (knownPeer : SockAddr → Bool) :
    List Datagram → Option (Int × List Nat)
  | [] => none
  | d :: rest =>
    match radudpgetStep gcrl knownPeer d with
    | some r => some r
    | none => radudpget gcrl knownPeer rest

/-! ## Server-side client identification pass (udp.c `radudpget`, client
branch) -/

/-- A `struct client` as the UDP receive pass sees it: an allocation
identity `id` (distinct heap records have distinct ids), the receive
socket, the peer address, and the expiry timestamp in unix seconds. -/
structure Client where
  id : Nat
  sock : Nat
  addr : SockAddr
  expiry : Int
deriving DecidableEq, Repr

/-- The walk over `p->clients` in udp.c `radudpget` (server side), under
the peer-config lock.  For each node (next pointer captured before the
body): skip clients on another socket; if no match was found yet and
`addr_equal` matches the datagram source, refresh the client's expiry to
`now + 60` and record it as the match; then, if the (possibly refreshed)
expiry has passed, remove the client from the list — `break` ends the
walk right there, leaving the rest of the list unvisited.  Returns the
updated list and the matched client, if any. -/
def clientPassLoop (s : Nat) (src : SockAddr) (now : Int) :
    List Client → Option Client → List Client × Option Client
  | [], found => ([], found)
  | c :: rest, found =>
    if c.sock ≠ s then
      let r := clientPassLoop s src now rest found
      (c :: r.1, r.2)
    else
      let doRefresh : Bool := found.isNone && addr_equal src c.addr
      let c2 := if doRefresh then { c with expiry := now + 60 } else c
      let found2 := if doRefresh then some c2 else found
      if now ≤ c2.expiry then
        let r := clientPassLoop s src now rest found2
        (c2 :: r.1, r.2)
      else
        (rest, found2)

/-- The full server-side client identification of udp.c `radudpget`: run
the pass; when no client matched, create a fresh record through
`addclient` with a copy of the source address, socket `s` and expiry
`now + 60`, and publish it.  Modelled from the spec where `addclient` is
external: it allocates a fresh client record (given the unused identity
`freshId`) and links it into the peer config's client list. -/
def radudpgetClientUpdate (s : Nat) (src : SockAddr) (now : Int)
    (freshId : Nat) (clients : List Client) : List Client × Client :=
  let r := clientPassLoop s src now clients none
  match r.2 with
  | some c => (r.1, c)
  | none =>
    (r.1 ++ [⟨freshId, s, src, now + 60⟩], ⟨freshId, s, src, now + 60⟩)

/-! ## Reply queue scrub (udp.c `removeudpclientfromreplyq`) -/

/-- A queued `struct request` as the scrub sees it: the originating
client (`from`, by client identity, `none` for NULL) and the remaining
fields, which the scrub never touches. -/
structure Request where
  from_ : Option Nat
  udpsock : Nat
  replybuf : List Nat
deriving DecidableEq, Repr

/-- udp.c `removeudpclientfromreplyq`: walk the reply queue under its
mutex and set `r->from = NULL` on every entry whose `from` is the client
being evicted; no entry is added, removed or reordered. -/
def removeudpclientfromreplyq (c : Nat) : List Request → List Request
  | [] => []
  | r :: rest =>
    (if r.from_ = some c then { r with from_ := none } else r) ::
      removeudpclientfromreplyq c rest

/-! ## Outbound socket pool (udp.c `addserverextraudp`) -/

/-- udp.c `struct client_sock`: the bytes of the bound source address (as
memcpy'd from the creating candidate's `ai_addr`, `ai_addrlen` bytes) and
the socket handle (`-1` for a failed `bindtoaddr`). -/
structure ClientSockM where
  source : List Nat
  socket : Int
deriving DecidableEq, Repr

/-- A resolved candidate bind address (`struct addrinfo`): its family and
its `ai_addrlen` address bytes. -/
structure AddrInfoM where
  family : Nat
  addr : List Nat
deriving DecidableEq, Repr

/-- Inner loop of udp.c `addserverextraudp`: find the first pool entry
whose source bytes `memcmp`-equal the candidate's address over the
candidate's `ai_addrlen` bytes. -/
def findReuse (cand : AddrInfoM) : List ClientSockM → Option ClientSockM
  | [] => none
  | e :: rest =>
    if e.source.take cand.addr.length = cand.addr then some e
    else findReuse cand rest

/-- udp.c `addserverextraudp`, candidate loop: for each candidate whose
family is AF_UNSPEC (0) or the destination family, assign the socket of
the first matching pool entry if any (this `break`s only the inner loop),
then — only if the server's socket is still unassigned (< 0) — bind a
fresh socket (`freshSock`), append a new pool entry recording the
candidate's bytes, assign it and `break` the candidate loop.  A reuse
assignment does not end the candidate loop, so later candidates are still
processed.  Returns the final socket value and pool. -/
def addserverextraudp (destFam : Nat) (freshSock : Int) :
    List AddrInfoM → List ClientSockM → Int → Int × List ClientSockM
  | [], pool, sock => (sock, pool)
  | cand :: rest, pool, sock =>
    if cand.family = 0 ∨ cand.family = destFam then
      let sock1 : Int :=
        match findReuse cand pool with
        | some e => e.socket
        | none => sock
      if sock1 < 0 then
        (freshSock, pool ++ [⟨cand.addr, freshSock⟩])
      else addserverextraudp destFam freshSock rest pool sock1
    else addserverextraudp destFam freshSock rest pool sock

/-! ## Concrete addresses used by witnesses and counterexamples -/

/-- IPv4 address 10.0.0.1, port 1. -/
def addrA : SockAddr := mkSockaddrIn [0, 1] [10, 0, 0, 1]

/-- IPv4 address 10.0.0.2, port 1. -/
def addrB : SockAddr := mkSockaddrIn [0, 1] [10, 0, 0, 2]

/-- IPv4 address 10.0.0.3, port 1. -/
def addrC : SockAddr := mkSockaddrIn [0, 1] [10, 0, 0, 3]

/-- Default `Request` used with `List.getD` when indexing reply queues. -/
def req0 : Request := ⟨none, 0, []⟩

/-- Default `TLV` used with `List.getD` when indexing TLV lists. -/
def tlv0 : TLV := ⟨0, 0, none⟩

/-! ## Helper lemmas -/

/-- A successful `maketlv` always returns the record built from its
arguments: value buffer holding the first `l` bytes of `v` when `l` is
nonzero and `v` is present, NULL value otherwise. -/
theorem maketlvM_shape (o : List Bool) (t l : Nat) (v : Option (List Nat))
    (r : TLV) (hr : (maketlvM o t l v).1 = some r) :
    r = ⟨t, l, if l ≠ 0 ∧ v.isSome then some ((v.getD []).take l) else none⟩ := by
  unfold maketlvM at hr
  by_cases h1 : (alloc o).1 = false
  · simp [h1] at hr
  · by_cases hc : l ≠ 0 ∧ v.isSome
    · by_cases h2 : (alloc (alloc o).2).1 = false
      · simp [h1, hc, h2] at hr
      · simp [h1, hc, h2] at hr
        simp [hc, hr.symm]
    · simp [h1, hc] at hr
      simp [hc, hr.symm]

/-- A successful `copytlv` of a non-NULL TLV returns exactly
`copytlvPure`. -/
theorem copytlvM_shape (o : List Bool) (x : TLV) (c : TLV)
    (hc : (copytlvM o (some x)).1 = some c) : c = copytlvPure x := by
  have h := maketlvM_shape o x.t x.l x.v c (by simpa [copytlvM] using hc)
  simpa [copytlvPure] using h

/-- With every allocation succeeding, `copytlv` of a non-NULL TLV
succeeds and returns `copytlvPure`. -/
theorem copytlvM_empty (x : TLV) :
    copytlvM [] (some x) = (some (copytlvPure x), []) := by
  by_cases h : x.l ≠ 0 ∧ x.v.isSome <;>
    simp [copytlvM, maketlvM, alloc, copytlvPure, h]

/-- The `rmtlv` walk with kept-prefix accumulator computes the filter of
the remaining list appended to the accumulator. -/
theorem rmtlvGo_eq_filter (ty : Nat) (l : List TLV) :
    ∀ kept : List TLV,
      rmtlvGo ty kept l = kept ++ l.filter (fun x => decide (x.t ≠ ty)) := by
  induction l with
  | nil => intro kept; simp [rmtlvGo]
  | cons x rest ih =>
    intro kept
    by_cases hx : x.t = ty
    · simp [rmtlvGo, hx, ih]
    · simp [rmtlvGo, hx, ih]

/-- C8: after `rmtlv(L, τ)` the list contains zero elements of type `τ`,
and the remaining elements are exactly the elements of `L` whose type
differs from `τ`, in the same relative order (the list equals the filter
of `L` by type ≠ `τ`). -/
theorem rmtlv_remove_by_type (L : List TLV) (τ : Nat) :
    rmtlv L τ = L.filter (fun x => decide (x.t ≠ τ)) ∧
    (rmtlv L τ).countP (fun x => decide (x.t = τ)) = 0 := by
  have hmain : rmtlv L τ = L.filter (fun x => decide (x.t ≠ τ)) := by
    simpa [rmtlv] using rmtlvGo_eq_filter τ L []
  refine ⟨hmain, ?_⟩
  rw [hmain, List.countP_eq_zero]
  intro a ha
  rw [List.mem_filter] at ha
  simpa using ha.2

/-- C9: for a TLV satisfying the invariant, a successful `copytlv` yields
a TLV that `eqtlv`-equals the original, and `copytlv` of NULL is NULL. -/
theorem copytlv_eqtlv (x : TLV) (hinv : TLVinv x) :
    (∀ o c, (copytlvM o (some x)).1 = some c → eqtlv (some c) (some x) = true) ∧
    (∀ o, (copytlvM o none).1 = none) := by
  constructor
  · intro o c hc
    have hshape := copytlvM_shape o x c hc
    subst hshape
    rcases hx : x.v with _ | b
    · have hl : x.l = 0 := hinv.1.mp hx
      simp [eqtlv, copytlvPure, hx, hl]
    · have hl : x.l ≠ 0 := by
        intro h0
        rw [hinv.1.mpr h0] at hx
        cases hx
      have hlen : b.length = x.l := hinv.2 b hx
      simp [eqtlv, copytlvPure, hx, hl, List.take_take]
  · intro o
    rfl

/-- C9 witness: a concrete invariant-satisfying TLV whose copy (all
allocations succeeding) compares equal to the original. -/
theorem copytlv_eqtlv_witness :
    eqtlv (some (copytlvPure ⟨1, 2, some [3, 4]⟩)) (some ⟨1, 2, some [3, 4]⟩) = true :=
  (copytlv_eqtlv ⟨1, 2, some [3, 4]⟩
    ⟨by simp, fun b hb => by cases hb; rfl⟩).1 [] (copytlvPure ⟨1, 2, some [3, 4]⟩)
    (by decide)

/-- C10 counterexample: `maketlv(7, 3, NULL)` succeeds (no allocation
fails) yet returns a TLV with length field 3 and an absent value, which
violates the TLV invariant — the claim is false for `l > 0` with `v`
absent. -/
theorem maketlv_inv_cex :
    (maketlvM [] 7 3 none).1 = some ⟨7, 3, none⟩ ∧ ¬ TLVinv ⟨7, 3, none⟩ := by
  constructor
  · rfl
  · intro h
    exact absurd (h.1.mp rfl) (by decide)

/-- C10 amended: for inputs where a nonzero `l` comes with a present `v`
holding at least `l` bytes, a TLV successfully returned by `maketlv`
satisfies the TLV invariant (and carries the given `t` and `l`); when
`l > 0` and `v` is absent the returned TLV violates the invariant, as the
counterexample shows. -/
theorem maketlv_inv (t l : Nat) (v : Option (List Nat))
    (h : l ≠ 0 → ∃ b, v = some b ∧ l ≤ b.length) :
    ∀ o r, (maketlvM o t l v).1 = some r → TLVinv r ∧ r.t = t ∧ r.l = l := by
  intro o r hr
  have hshape := maketlvM_shape o t l v r hr
  subst hshape
  by_cases hl : l = 0
  · subst hl
    simp [TLVinv]
  · obtain ⟨b, hv, hlen⟩ := h hl
    subst hv
    refine ⟨⟨?_, ?_⟩, rfl, rfl⟩
    · simp [hl]
    · intro bb hbb
      simp [hl] at hbb
      simp [← hbb, List.length_take]
      omega

/-- C10 witness: a concrete well-formed input on which `maketlv` returns
an invariant-satisfying TLV. -/
theorem maketlv_inv_witness :
    TLVinv ⟨1, 2, some [5, 6]⟩ ∧ (⟨1, 2, some [5, 6]⟩ : TLV).t = 1 ∧
      (⟨1, 2, some [5, 6]⟩ : TLV).l = 2 :=
  maketlv_inv 1 2 (some [5, 6]) (fun _ => ⟨[5, 6], rfl, by decide⟩) []
    ⟨1, 2, some [5, 6]⟩ (by decide)

/-- With every allocation succeeding, the `copytlvlist` loop appends the
deep copies of all remaining elements, in order, to the accumulator. -/
theorem copytlvlistGo_empty (l : List TLV) :
    ∀ acc : List (Option TLV),
      copytlvlistGo [] acc l =
        (some (acc ++ l.map (fun x => some (copytlvPure x))), []) := by
  induction l with
  | nil => intro acc; simp [copytlvlistGo]
  | cons x rest ih =>
    intro acc
    simp [copytlvlistGo, copytlvM_empty, alloc, ih]

/-- Whenever the `copytlvlist` loop returns a list, that list extends the
accumulator by exactly one entry per remaining element, each entry being
either NULL (its element's copy allocation failed) or the deep copy of
its element. -/
theorem copytlvlistGo_sound (l : List TLV) :
    ∀ (o : List Bool) (acc out : List (Option TLV)),
      (copytlvlistGo o acc l).1 = some out →
      ∃ tail, out = acc ++ tail ∧ tail.length = l.length ∧
        ∀ i, i < l.length →
          tail.getD i none = none ∨
          tail.getD i none = some (copytlvPure (l.getD i tlv0)) := by
  induction l with
  | nil =>
    intro o acc out h
    simp [copytlvlistGo] at h
    exact ⟨[], by simp [← h], by simp, fun i hi => absurd hi (by simp)⟩
  | cons x rest ih =>
    intro o acc out h
    unfold copytlvlistGo at h
    by_cases ha : (alloc (copytlvM o (some x)).2).1 = false
    · simp [ha] at h
    · simp only [ha, if_neg, Bool.false_eq_true, not_false_eq_true, if_false] at h
      obtain ⟨tail', ht', hlen', hel'⟩ := ih _ _ _ h
      refine ⟨(copytlvM o (some x)).1 :: tail', ?_, by simp [hlen'], ?_⟩
      · rw [ht']
        simp
      · intro i hi
        cases i with
        | zero =>
          rcases hc : (copytlvM o (some x)).1 with _ | c
          · left
            simp
          · right
            have := copytlvM_shape o x c hc
            simp [this]
        | succ j =>
          simpa using hel' j (by simpa using hi)

/-- C7 counterexample: with the allocation oracle granting the
`list_create` allocation, refusing the element's `maketlv` allocation and
granting the `list_push` node allocation, `copytlvlist` of a one-element
list returns a present list containing a NULL element instead of
returning NULL — the claim's all-or-nothing behavior is false. -/
theorem copytlvlist_cex :
    (copytlvlistM [true, false, true] (some [⟨1, 0, none⟩])).1 = some [none] ∧
    (copytlvlistM [true, false, true] (some [⟨1, 0, none⟩])).1 ≠ none := by
  decide

/-- C7 amended: `copytlvlist(L)` aborts (freeing everything copied so
far) and returns NULL when a list-node allocation in `list_push` (or the
`list_create` allocation) fails; when it does return a list, that list
has exactly one entry per element of `L`, in order, each entry being
either the deep copy of its element or NULL — NULL exactly when that
element's own copy allocation failed while the node allocation
succeeded; with every allocation succeeding the result is the list of
deep copies of all elements in order. -/
theorem copytlvlist_amended (L : List TLV) :
    ((copytlvlistM [] (some L)).1 =
      some (L.map (fun x => some (copytlvPure x)))) ∧
    (∀ o out, (copytlvlistM o (some L)).1 = some out →
      out.length = L.length ∧
      ∀ i, i < L.length →
        out.getD i none = none ∨
        out.getD i none = some (copytlvPure (L.getD i tlv0))) := by
  constructor
  · simp [copytlvlistM, alloc, copytlvlistGo_empty]
  · intro o out h
    unfold copytlvlistM at h
    by_cases ha : (alloc o).1 = false
    · simp [ha] at h
    · simp only [ha, Bool.false_eq_true, not_false_eq_true, if_false] at h
      obtain ⟨tail, ht, hlen, hel⟩ := copytlvlistGo_sound L _ [] out h
      simp only [List.nil_append] at ht
      subst ht
      exact ⟨hlen, hel⟩

/-- C7 witness: on a concrete one-element list with every allocation
succeeding, `copytlvlist` returns the deep copy, and the general shape
part applies to that run. -/
theorem copytlvlist_amended_witness :
    (copytlvlistM [] (some [(⟨1, 2, some [3, 4]⟩ : TLV)])).1 =
      some ([(⟨1, 2, some [3, 4]⟩ : TLV)].map (fun x => some (copytlvPure x))) ∧
    ([(⟨1, 2, some [3, 4]⟩ : TLV)].map
      (fun x => some (copytlvPure x))).length = 1 := by
  have h := copytlvlist_amended [⟨1, 2, some [3, 4]⟩]
  exact ⟨h.1, (h.2 [] ([(⟨1, 2, some [3, 4]⟩ : TLV)].map
    (fun x => some (copytlvPure x))) h.1).1⟩

/-- Pointwise effect of the reply-queue scrub, by index. -/
theorem removeudpclientfromreplyq_getD (c : Nat) (q : List Request) :
    ∀ i, i < q.length →
      ((q.getD i req0).from_ = some c →
        (removeudpclientfromreplyq c q).getD i req0 =
          { q.getD i req0 with from_ := none }) ∧
      ((q.getD i req0).from_ ≠ some c →
        (removeudpclientfromreplyq c q).getD i req0 = q.getD i req0) := by
  induction q with
  | nil => intro i hi; exact absurd hi (by simp)
  | cons r rest ih =>
    intro i hi
    cases i with
    | zero =>
      simp only [removeudpclientfromreplyq, List.getD_cons_zero]
      constructor
      · intro hf
        rw [if_pos hf]
      · intro hf
        rw [if_neg hf]
    | succ j =>
      simp only [removeudpclientfromreplyq, List.getD_cons_succ]
      exact ih j (by simpa using hi)

/-- C4: after `removeudpclientfromreplyq(c)`, the queue has the same
length (no entry added, removed or reordered); every entry whose `from`
pointed at `c` has `from` set to none with all other fields unchanged,
and every other entry is entirely unchanged. -/
theorem removeudpclientfromreplyq_spec (c : Nat) (q : List Request) :
    (removeudpclientfromreplyq c q).length = q.length ∧
    ∀ i, i < q.length →
      ((q.getD i req0).from_ = some c →
        (removeudpclientfromreplyq c q).getD i req0 =
          { q.getD i req0 with from_ := none }) ∧
      ((q.getD i req0).from_ ≠ some c →
        (removeudpclientfromreplyq c q).getD i req0 = q.getD i req0) := by
  constructor
  · induction q with
    | nil => rfl
    | cons r rest ih => simp [removeudpclientfromreplyq, ih]
  · exact removeudpclientfromreplyq_getD c q

/-- C4 witness: on a concrete two-entry queue, the scrub keeps the
length, clears `from` on the matching entry and leaves the other entry
untouched. -/
theorem removeudpclientfromreplyq_spec_witness :
    (removeudpclientfromreplyq 1 [⟨some 1, 5, [9]⟩, ⟨some 2, 6, [8]⟩]).length =
      ([⟨some 1, 5, [9]⟩, (⟨some 2, 6, [8]⟩ : Request)]).length ∧
    (removeudpclientfromreplyq 1 [⟨some 1, 5, [9]⟩, ⟨some 2, 6, [8]⟩]).getD 0 req0 =
      { ([⟨some 1, 5, [9]⟩, (⟨some 2, 6, [8]⟩ : Request)]).getD 0 req0 with
          from_ := none } ∧
    (removeudpclientfromreplyq 1 [⟨some 1, 5, [9]⟩, ⟨some 2, 6, [8]⟩]).getD 1 req0 =
      ([⟨some 1, 5, [9]⟩, (⟨some 2, 6, [8]⟩ : Request)]).getD 1 req0 := by
  have h := removeudpclientfromreplyq_spec 1 [⟨some 1, 5, [9]⟩, ⟨some 2, 6, [8]⟩]
  exact ⟨h.1, (h.2 0 (by decide)).1 (by decide), (h.2 1 (by decide)).2 (by decide)⟩

/-- C5 counterexample: an IPv4 address compared against an IPv6 address
whose flow-info bytes coincide with the IPv4 address bytes (and whose
port bytes agree) makes `addr_equal` return true although the families
differ — `addr_equal` switches on the family of its first argument only
and reads the second argument through the same cast. -/
theorem addr_equal_cross_family_cex :
    addr_equal (mkSockaddrIn [0, 53] [9, 9, 9, 9])
        (mkSockaddrIn6 [0, 53] [9, 9, 9, 9] (List.replicate 16 1) [0, 0, 0, 0]) =
      true ∧
    (mkSockaddrIn [0, 53] [9, 9, 9, 9]).family ≠
      (mkSockaddrIn6 [0, 53] [9, 9, 9, 9] (List.replicate 16 1)
        [0, 0, 0, 0]).family := by
  decide

/-- C5 amended: for two addresses of the same family (both AF_INET or
both AF_INET6, with well-formed field widths), `addr_equal` returns true
iff the address bytes and the port bytes agree; it is reflexive on every
AF_INET/AF_INET6 address and symmetric on same-family pairs.  When the
families differ the result is not always false: it is computed from the
overlaid bytes of the second argument, as the counterexample shows. -/
theorem addr_equal_same_family
    (pa aa pb ab p6a f6a a6a s6a p6b f6b a6b s6b : List Nat)
    (hpa : pa.length = 2) (haa : aa.length = 4)
    (hpb : pb.length = 2) (hab : ab.length = 4)
    (hp6a : p6a.length = 2) (hf6a : f6a.length = 4) (ha6a : a6a.length = 16)
    (hp6b : p6b.length = 2) (hf6b : f6b.length = 4) (ha6b : a6b.length = 16) :
    (addr_equal (mkSockaddrIn pa aa) (mkSockaddrIn pb ab) = true ↔
      (aa = ab ∧ pa = pb)) ∧
    (addr_equal (mkSockaddrIn6 p6a f6a a6a s6a)
        (mkSockaddrIn6 p6b f6b a6b s6b) = true ↔ (a6a = a6b ∧ p6a = p6b)) ∧
    (∀ x : SockAddr, x.family = 2 ∨ x.family = 10 → addr_equal x x = true) ∧
    (addr_equal (mkSockaddrIn pa aa) (mkSockaddrIn pb ab) =
      addr_equal (mkSockaddrIn pb ab) (mkSockaddrIn pa aa)) ∧
    (addr_equal (mkSockaddrIn6 p6a f6a a6a s6a)
        (mkSockaddrIn6 p6b f6b a6b s6b) =
      addr_equal (mkSockaddrIn6 p6b f6b a6b s6b)
        (mkSockaddrIn6 p6a f6a a6a s6a)) := by
  have h4 : ∀ (p a : List Nat), p.length = 2 → a.length = 4 →
      ((p ++ (a ++ List.replicate 8 0)).drop 2).take 4 = a ∧
      (p ++ (a ++ List.replicate 8 0)).take 2 = p := by
    intro p a hp ha
    exact ⟨by rw [List.drop_left' hp, List.take_left' ha], List.take_left' hp⟩
  have h6 : ∀ (p f a s : List Nat), p.length = 2 → f.length = 4 →
      a.length = 16 →
      ((p ++ (f ++ (a ++ s))).drop 6).take 16 = a ∧
      (p ++ (f ++ (a ++ s))).take 2 = p := by
    intro p f a s hp hf ha
    constructor
    · rw [show p ++ (f ++ (a ++ s)) = (p ++ f) ++ (a ++ s) from
        (List.append_assoc p f (a ++ s)).symm]
      rw [List.drop_left' (by simp [hp, hf]), List.take_left' ha]
    · exact List.take_left' hp
  have expand4 : ∀ (p a q b : List Nat),
      addr_equal (mkSockaddrIn p a) (mkSockaddrIn q b) =
        (decide (((p ++ (a ++ List.replicate 8 0)).drop 2).take 4 =
            ((q ++ (b ++ List.replicate 8 0)).drop 2).take 4) &&
          decide ((p ++ (a ++ List.replicate 8 0)).take 2 =
            (q ++ (b ++ List.replicate 8 0)).take 2)) :=
    fun _ _ _ _ => rfl
  have expand6 : ∀ (p f a s q g b u : List Nat),
      addr_equal (mkSockaddrIn6 p f a s) (mkSockaddrIn6 q g b u) =
        (decide (((p ++ (f ++ (a ++ s))).drop 6).take 16 =
            ((q ++ (g ++ (b ++ u))).drop 6).take 16) &&
          decide ((p ++ (f ++ (a ++ s))).take 2 =
            (q ++ (g ++ (b ++ u))).take 2)) :=
    fun _ _ _ _ _ _ _ _ => rfl
  have e1 := h4 pa aa hpa haa
  have e2 := h4 pb ab hpb hab
  have e3 := h6 p6a f6a a6a s6a hp6a hf6a ha6a
  have e4 := h6 p6b f6b a6b s6b hp6b hf6b ha6b
  have iff4 : addr_equal (mkSockaddrIn pa aa) (mkSockaddrIn pb ab) = true ↔
      (aa = ab ∧ pa = pb) := by
    rw [expand4, e1.1, e1.2, e2.1, e2.2]
    simp
  have iff6 : addr_equal (mkSockaddrIn6 p6a f6a a6a s6a)
      (mkSockaddrIn6 p6b f6b a6b s6b) = true ↔ (a6a = a6b ∧ p6a = p6b) := by
    rw [expand6, e3.1, e3.2, e4.1, e4.2]
    simp
  have iff4r : addr_equal (mkSockaddrIn pb ab) (mkSockaddrIn pa aa) = true ↔
      (ab = aa ∧ pb = pa) := by
    rw [expand4, e1.1, e1.2, e2.1, e2.2]
    simp
  have iff6r : addr_equal (mkSockaddrIn6 p6b f6b a6b s6b)
      (mkSockaddrIn6 p6a f6a a6a s6a) = true ↔ (a6b = a6a ∧ p6b = p6a) := by
    rw [expand6, e3.1, e3.2, e4.1, e4.2]
    simp
  refine ⟨iff4, iff6, ?_, ?_, ?_⟩
  · intro x hx
    rcases hx with h | h <;> simp [addr_equal, h]
  · by_cases hcase : aa = ab ∧ pa = pb
    · rw [iff4.mpr hcase, iff4r.mpr ⟨hcase.1.symm, hcase.2.symm⟩]
    · have f1 : addr_equal (mkSockaddrIn pa aa) (mkSockaddrIn pb ab) = false := by
        rw [Bool.eq_false_iff]
        exact fun h => hcase (iff4.mp h)
      have f2 : addr_equal (mkSockaddrIn pb ab) (mkSockaddrIn pa aa) = false := by
        rw [Bool.eq_false_iff]
        exact fun h => hcase ⟨(iff4r.mp h).1.symm, (iff4r.mp h).2.symm⟩
      rw [f1, f2]
  · by_cases hcase : a6a = a6b ∧ p6a = p6b
    · rw [iff6.mpr hcase, iff6r.mpr ⟨hcase.1.symm, hcase.2.symm⟩]
    · have f1 : addr_equal (mkSockaddrIn6 p6a f6a a6a s6a)
          (mkSockaddrIn6 p6b f6b a6b s6b) = false := by
        rw [Bool.eq_false_iff]
        exact fun h => hcase (iff6.mp h)
      have f2 : addr_equal (mkSockaddrIn6 p6b f6b a6b s6b)
          (mkSockaddrIn6 p6a f6a a6a s6a) = false := by
        rw [Bool.eq_false_iff]
        exact fun h => hcase ⟨(iff6r.mp h).1.symm, (iff6r.mp h).2.symm⟩
      rw [f1, f2]

/-- C5 witness: the same-family characterization applied to two concrete
IPv4 addresses differing only in the last address byte. -/
theorem addr_equal_same_family_witness :
    addr_equal (mkSockaddrIn [0, 1] [10, 0, 0, 1])
      (mkSockaddrIn [0, 1] [10, 0, 0, 2]) = false := by
  have h := (addr_equal_same_family [0, 1] [10, 0, 0, 1] [0, 1] [10, 0, 0, 2]
    [0, 0] [0, 0, 0, 0] (List.replicate 16 0) [] [0, 0] [0, 0, 0, 0]
    (List.replicate 16 0) [] rfl rfl rfl rfl rfl rfl (by simp) rfl rfl
    (by simp)).1
  cases hb : addr_equal (mkSockaddrIn [0, 1] [10, 0, 0, 1])
      (mkSockaddrIn [0, 1] [10, 0, 0, 2])
  · rfl
  · exact absurd ((h.mp hb).1) (by decide)

/-- C1: for a datagram from a configured peer: if the checked length of
the peeked 4-byte prefix is ≤ 0 or > 4096 the datagram is consumed and
the loop continues without returning; for a valid length, when at least
the declared number of bytes arrived `radudpget` returns exactly the
declared length together with a buffer holding exactly the first `len`
bytes of the datagram (even when the datagram was longer), and when
fewer bytes arrived the datagram is discarded and the loop continues.
Stated for every length-check function `gcrl` and peer predicate
`knownPeer`, i.e. in particular for `get_checked_rad_length`. -/
theorem radudpget_framing (gcrl : List Nat → Int) (knownPeer : SockAddr → Bool)
    (d : Datagram) (rest : List Datagram) (hk : knownPeer d.src = true) :
    ((gcrl (d.data.take 4) ≤ 0 ∨ 4096 < gcrl (d.data.take 4)) →
      radudpget gcrl knownPeer (d :: rest) = radudpget gcrl knownPeer rest) ∧
    (0 < gcrl (d.data.take 4) → gcrl (d.data.take 4) ≤ 4096 →
      ((gcrl (d.data.take 4)).toNat ≤ d.data.length →
        radudpget gcrl knownPeer (d :: rest) =
          some (gcrl (d.data.take 4),
            d.data.take (gcrl (d.data.take 4)).toNat) ∧
        (d.data.take (gcrl (d.data.take 4)).toNat).length =
          (gcrl (d.data.take 4)).toNat) ∧
      (d.data.length < (gcrl (d.data.take 4)).toNat →
        radudpget gcrl knownPeer (d :: rest) =
          radudpget gcrl knownPeer rest)) := by
  have hstep0 : radudpgetStep gcrl knownPeer d =
      (if gcrl (d.data.take 4) ≤ 0 then none
       else if 4096 < gcrl (d.data.take 4) then none
       else if (d.data.length : Int) < gcrl (d.data.take 4) then none
       else some (gcrl (d.data.take 4),
         d.data.take (gcrl (d.data.take 4)).toNat)) := by
    simp [radudpgetStep, hk]
  constructor
  · intro hbad
    have hstep : radudpgetStep gcrl knownPeer d = none := by
      rw [hstep0]
      split_ifs with h1 h2 h3 <;> first | rfl | omega
    simp [radudpget, hstep]
  · intro hpos hle
    constructor
    · intro hlen
      have hstep : radudpgetStep gcrl knownPeer d =
          some (gcrl (d.data.take 4),
            d.data.take (gcrl (d.data.take 4)).toNat) := by
        rw [hstep0]
        split_ifs with h1 h2 h3 <;> first | rfl | omega
      refine ⟨by simp [radudpget, hstep], ?_⟩
      rw [List.length_take]
      omega
    · intro hshort
      have hstep : radudpgetStep gcrl knownPeer d = none := by
        rw [hstep0]
        split_ifs with h1 h2 h3 <;> first | rfl | omega
      simp [radudpget, hstep]

/-- C1 witness: a 22-byte datagram whose header declares length 22 from a
known peer is returned whole, with the spec-modelled
`get_checked_rad_length` as the length check. -/
theorem radudpget_framing_witness :
    radudpget get_checked_rad_length (fun _ => true)
        [⟨addrA, [1, 0, 0, 22] ++ List.replicate 18 0⟩] =
      some (22, [1, 0, 0, 22] ++ List.replicate 18 0) := by
  have h := ((radudpget_framing get_checked_rad_length (fun _ => true)
      ⟨addrA, [1, 0, 0, 22] ++ List.replicate 18 0⟩ [] rfl).2
      (by decide) (by decide)).1 (by decide)
  rw [h.1]
  decide

/-- A prefix of clients that are kept without matching (non-matching
address and unexpired, whenever on socket `s`) passes through the walk
unchanged, with the walk continuing on the remainder. -/
theorem clientPassLoop_skip (s : Nat) (src : SockAddr) (now : Int)
    (pre l : List Client)
    (hpre : ∀ x ∈ pre, x.sock = s →
      addr_equal src x.addr = false ∧ now ≤ x.expiry) :
    clientPassLoop s src now (pre ++ l) none =
      (pre ++ (clientPassLoop s src now l none).1,
        (clientPassLoop s src now l none).2) := by
  induction pre with
  | nil => simp
  | cons x rest ih =>
    have hrest : ∀ y ∈ rest, y.sock = s →
        addr_equal src y.addr = false ∧ now ≤ y.expiry :=
      fun y hy => hpre y (by simp [hy])
    by_cases hs : x.sock = s
    · obtain ⟨hne, hexp⟩ := hpre x (by simp) hs
      simp [clientPassLoop, hs, hne, hexp, ih hrest]
    · simp [clientPassLoop, hs, ih hrest]

/-- Once a match has been recorded, the walk no longer refreshes anyone;
if every remaining socket-`s` client is unexpired, the remainder is kept
unchanged and the recorded match is returned. -/
theorem clientPassLoop_found (s : Nat) (src : SockAddr) (now : Int)
    (l : List Client) (f : Client)
    (h : ∀ x ∈ l, x.sock = s → now ≤ x.expiry) :
    clientPassLoop s src now l (some f) = (l, some f) := by
  induction l with
  | nil => rfl
  | cons x rest ih =>
    have hrest : ∀ y ∈ rest, y.sock = s → now ≤ y.expiry :=
      fun y hy => h y (by simp [hy])
    by_cases hs : x.sock = s
    · simp [clientPassLoop, hs, h x (by simp) hs, ih hrest]
    · simp [clientPassLoop, hs, ih hrest]

/-- C2 counterexample: two expired socket-0 clients, neither matching the
source address; the pass removes only the first one and `break`s, so the
second expired non-matching client — which the claim says must be
removed in the same pass — is still in the list. -/
theorem radudpget_client_pass_cex :
    clientPassLoop 0 addrA 100
        [⟨1, 0, addrB, 0⟩, ⟨2, 0, addrC, 0⟩] none =
      ([⟨2, 0, addrC, 0⟩], none) ∧
    (⟨2, 0, addrC, 0⟩ : Client).sock = 0 ∧
    (⟨2, 0, addrC, 0⟩ : Client).expiry < 100 ∧
    addr_equal addrA (⟨2, 0, addrC, 0⟩ : Client).addr = false := by
  decide

/-- C2 amended: the pass removes at most one client — the first socket-`s`
client whose (possibly just-refreshed) expiry has passed — and stops
right there, leaving the rest of the list unvisited.  A client whose
address matches the source is refreshed to `now + 60` and returned only
when it is encountered before the pass stops; the refreshed match itself
is never the one removed.  Formally: with a prefix of non-matching
unexpired socket-`s` clients (and arbitrary other-socket clients), the
first expired non-matching socket-`s` client is removed and the pass
ends with the suffix untouched; and a matching client in that position
is refreshed and returned, the suffix survives when its socket-`s`
clients are unexpired. -/
theorem radudpget_client_pass_amended (s : Nat) (src : SockAddr) (now : Int)
    (pre post : List Client) (c : Client)
    (hpre : ∀ x ∈ pre, x.sock = s →
      addr_equal src x.addr = false ∧ now ≤ x.expiry)
    (hc : c.sock = s) :
    (addr_equal src c.addr = false → c.expiry < now →
      clientPassLoop s src now (pre ++ c :: post) none = (pre ++ post, none)) ∧
    (addr_equal src c.addr = true →
      (∀ x ∈ post, x.sock = s → now ≤ x.expiry) →
      clientPassLoop s src now (pre ++ c :: post) none =
        (pre ++ { c with expiry := now + 60 } :: post,
          some { c with expiry := now + 60 })) := by
  constructor
  · intro hne hexp
    rw [clientPassLoop_skip s src now pre (c :: post) hpre]
    have hnotle : ¬ now ≤ c.expiry := by omega
    have hc2 : clientPassLoop s src now (c :: post) none = (post, none) := by
      simp [clientPassLoop, hc, hne, hnotle]
    rw [hc2]
  · intro hmatch hpost
    rw [clientPassLoop_skip s src now pre (c :: post) hpre]
    have hc2 : clientPassLoop s src now (c :: post) none =
        ({ c with expiry := now + 60 } :: post,
          some { c with expiry := now + 60 }) := by
      simp [clientPassLoop, hc, hmatch]
      all_goals rw [clientPassLoop_found s src now post _ hpost]
      all_goals exact ⟨rfl, rfl⟩
    rw [hc2]

/-- C2 witness: concrete pass in which the prefix client is kept, the
expired middle client is removed, and the expired suffix client
survives because the pass stops. -/
theorem radudpget_client_pass_amended_witness :
    clientPassLoop 0 addrA 100
        ([⟨1, 0, addrB, 200⟩] ++ (⟨2, 0, addrC, 0⟩ : Client) :: [⟨3, 0, addrB, 0⟩])
        none =
      ([⟨1, 0, addrB, 200⟩] ++ [⟨3, 0, addrB, 0⟩], none) :=
  (radudpget_client_pass_amended 0 addrA 100 [⟨1, 0, addrB, 200⟩]
    [⟨3, 0, addrB, 0⟩] ⟨2, 0, addrC, 0⟩ (by decide) rfl).1 (by decide) (by decide)

/-- C3 counterexample: a single client whose last match was more than 60
seconds before `now` (expiry 1 < now = 100), with the new datagram from
the SAME address: the pass refreshes and returns the OLD record (id 5) —
it is neither removed nor replaced by a freshly allocated client (fresh
id 99), contrary to the claim. -/
theorem radudpget_expiry_cex :
    radudpgetClientUpdate 0 addrA 100 99 [⟨5, 0, addrA, 1⟩] =
      ([⟨5, 0, addrA, 160⟩], ⟨5, 0, addrA, 160⟩) ∧
    (⟨5, 0, addrA, 160⟩ : Client).id = 5 ∧ (5 : Nat) ≠ 99 ∧
    (⟨5, 0, addrA, 1⟩ : Client).expiry < 100 := by
  decide

/-- C3 amended: for a client whose expiry passed before the next datagram
on its socket: when that datagram comes from a DIFFERENT address the old
record is removed during the pass and a freshly allocated client for the
new address (fresh identity, expiry `now + 60`) is created and returned;
when it comes from the SAME address the old record itself is refreshed
to `now + 60` and returned — no removal and no fresh allocation. -/
theorem radudpget_expiry_amended (s : Nat) (src : SockAddr) (now : Int)
    (fid : Nat) (c : Client) (hs : c.sock = s) (he : c.expiry < now) :
    (addr_equal src c.addr = false →
      radudpgetClientUpdate s src now fid [c] =
        ([⟨fid, s, src, now + 60⟩], ⟨fid, s, src, now + 60⟩)) ∧
    (addr_equal src c.addr = true →
      radudpgetClientUpdate s src now fid [c] =
        ([{ c with expiry := now + 60 }], { c with expiry := now + 60 })) := by
  constructor
  · intro hne
    have hpass : clientPassLoop s src now [c] none = ([], none) := by
      simp [clientPassLoop, hs, hne]
      omega
    simp [radudpgetClientUpdate, hpass]
  · intro hmatch
    have hle : now ≤ now + 60 := by omega
    have hpass : clientPassLoop s src now [c] none =
        ([{ c with expiry := now + 60 }], some { c with expiry := now + 60 }) := by
      simp [clientPassLoop, hs, hmatch, hle]
    simp [radudpgetClientUpdate, hpass]

/-- C3 witness: an expired client and a new datagram from a different
address — the old record is gone and a fresh client (id 99) with expiry
`now + 60` is returned. -/
theorem radudpget_expiry_amended_witness :
    radudpgetClientUpdate 0 addrA 100 99 [⟨5, 0, addrB, 1⟩] =
      ([⟨99, 0, addrA, 160⟩], ⟨99, 0, addrA, 160⟩) :=
  (radudpget_expiry_amended 0 addrA 100 99 ⟨5, 0, addrB, 1⟩ rfl
    (by decide)).1 (by decide)

/-- A pool with no entry matching the candidate contributes nothing to
the inner-loop search over an extended pool. -/
theorem findReuse_append_none (cand : AddrInfoM) (pool l : List ClientSockM)
    (h : findReuse cand pool = none) :
    findReuse cand (pool ++ l) = findReuse cand l := by
  induction pool with
  | nil => simp
  | cons e rest ih =>
    by_cases he : e.source.take cand.addr.length = cand.addr
    · simp [findReuse, he] at h
    · simp only [findReuse, he, if_neg, not_false_eq_true, List.cons_append] at h ⊢
      simp [he] at h ⊢
      exact ih h

/-- C6 counterexample: two family-compatible candidates each matching a
different pool entry (sockets 1 and 2, initial server socket -1).  The
claim predicts the first assignment (socket 1) wins and the loop exits;
the code only `break`s the inner loop on reuse, so the second candidate
reassigns and the final socket is 2. -/
theorem addserverextraudp_cex :
    addserverextraudp 2 7 [⟨2, [1]⟩, ⟨2, [2]⟩] [⟨[1], 1⟩, ⟨[2], 2⟩] (-1) =
      (2, [⟨[1], 1⟩, ⟨[2], 2⟩]) ∧ (2 : Int) ≠ 1 := by
  decide

/-- C6 amended: for a family-compatible candidate: if it matches no pool
entry while the server socket is still unassigned (< 0), a fresh socket
is bound, recorded in the pool, assigned, and the candidate loop exits
— no later candidate changes the assignment.  A reuse assignment (first
matching pool entry, socket ≥ 0) does NOT exit the loop: processing
continues on the remaining candidates with the assigned socket, so a
later matching candidate can override it.  Two server configurations
whose source resolves to the same single candidate share one socket: a
second configuration run against the pool extended by the first one's
fresh entry reuses exactly the first one's socket. -/
theorem addserverextraudp_amended (destFam : Nat) (freshSock g2 : Int)
    (cand : AddrInfoM) (rest rest2 : List AddrInfoM)
    (pool : List ClientSockM) (sock : Int)
    (hfam : cand.family = 0 ∨ cand.family = destFam) :
    (findReuse cand pool = none → sock < 0 →
      addserverextraudp destFam freshSock (cand :: rest) pool sock =
        (freshSock, pool ++ [⟨cand.addr, freshSock⟩])) ∧
    (∀ e, findReuse cand pool = some e → 0 ≤ e.socket →
      addserverextraudp destFam freshSock (cand :: rest) pool sock =
        addserverextraudp destFam freshSock rest pool e.socket) ∧
    (0 ≤ freshSock → findReuse cand pool = none →
      addserverextraudp destFam g2 (cand :: rest2)
          (pool ++ [⟨cand.addr, freshSock⟩]) (-1) =
        addserverextraudp destFam g2 rest2
          (pool ++ [⟨cand.addr, freshSock⟩]) freshSock) := by
  refine ⟨?_, ?_, ?_⟩
  · intro hnone hneg
    simp [addserverextraudp, hfam, hnone, hneg]
  · intro e hsome hpos
    have hnotneg : ¬ e.socket < 0 := by omega
    simp [addserverextraudp, hfam, hsome, hnotneg]
  · intro hfresh hnone
    have hmatch : findReuse cand (pool ++ [⟨cand.addr, freshSock⟩]) =
        some ⟨cand.addr, freshSock⟩ := by
      rw [findReuse_append_none cand pool _ hnone]
      simp [findReuse]
    have hnotneg : ¬ freshSock < 0 := by omega
    simp [addserverextraudp, hfam, hmatch, hnotneg]

/-- C6 witness: a single fresh candidate is bound and recorded (part 1 of
the amended statement applied at concrete inputs). -/
theorem addserverextraudp_amended_witness :
    addserverextraudp 2 3 [⟨2, [5]⟩] [] (-1) = (3, [⟨[5], 3⟩]) :=
  (addserverextraudp_amended 2 3 0 ⟨2, [5]⟩ [] [] [] (-1)
    (Or.inr rfl)).1 rfl (by decide)

end RadsecUdp
